import Mathlib

/-!
Verification of the HuggingFace checkpoint storage layer
(`torch/distributed/checkpoint/_hf_storage.py`).

The Python module is shallowly embedded: Python dicts become ordered
association lists (`List (κ × ν)`) with Python's insertion-order and
overwrite semantics made explicit (`dictInsert`, `bucketAdd`), byte
streams become `List Nat`, and exceptions become `Except String`.
External collaborators that the module imports (the planner's dataclasses,
the fsspec writer, the safetensors codec, Python's `json`) are modelled
from the spec, as marked on each definition.
-/

namespace HFStorage

/-- A byte as produced by a Python binary file read: a natural number below 256. -/
abbrev Byte := Nat

/-- The fixed manifest file name (`_metadata_fn` in the source). -/
def metadataFn : String := "model.safetensors.index.json"

/-- The safetensors file suffix (`SUFFIX` in the source). -/
def SUFFIX : String := ".safetensors"

/-- Python `str.zfill` restricted to non-negative decimal strings:
left-pad with zeros up to width `w`; a string already at least that wide
is returned unchanged. -/
def zfill (s : String) (w : Nat) : String :=
  if w ≤ s.length then s
  else String.mk (List.replicate (w - s.length) '0') ++ s

/-- `_HuggingFaceStorageWriter._gen_file_name`: instantiate the
`FILE_NAME` / `SHARDED_FILE_NAME` templates, each numeric field rendered
through `zfill _ 5`, and append the safetensors suffix. -/
def genFileName (index largestIndex : Nat) (shardIndex : Option Nat) : String :=
  match shardIndex with
  | some s =>
      "shard-" ++ zfill (Nat.repr s) 5 ++ "-model-" ++ zfill (Nat.repr index) 5 ++
        "-of-" ++ zfill (Nat.repr largestIndex) 5 ++ SUFFIX
  | none =>
      "model-" ++ zfill (Nat.repr index) 5 ++ "-of-" ++ zfill (Nat.repr largestIndex) 5 ++
        SUFFIX

/-- Modelled from the spec: a tensor / byte blob as this storage layer sees
it — a shape plus raw payload bytes (the codec owns dtype semantics). -/
structure Tensor where
  shape : List Nat
  data : List Byte
deriving Repr, DecidableEq

/-- Modelled from the spec: a `WriteItem` from
`torch.distributed.checkpoint.planner` (not under `src/`), reduced to the
fields this module touches — its fully qualified name (`item.index.fqn`)
and the payload the external codec will serialize. -/
structure WriteItem where
  fqn : String
  tensor : Tensor
deriving Repr, DecidableEq

/-- The `storage_data` dict attached by `prepare_global_plan`: it holds
the key `"fqn_to_index_mapping"` exactly when a mapping was supplied, and
the key `"shard_index"` exactly when sharded saving is on. -/
structure StorageData where
  fqn_to_index_mapping : Option (List (String × Nat))
  shard_index : Option Nat
deriving Repr, DecidableEq

/-- Modelled from the spec: a `SavePlan` dataclass (not under `src/`) —
an ordered item list plus the coordinator's `storage_data` attachment;
`planner_data` stands in for the plan's remaining fields, which this
module never reads and `dataclasses.replace` leaves untouched. -/
structure SavePlan where
  items : List WriteItem
  storage_data : StorageData
  planner_data : Option String
deriving Repr, DecidableEq

/-- Modelled from the spec: a `WriteResult` (not under `src/`), reduced to
the fields `finish` reads — `wr.index.fqn`, `wr.storage_data.relative_path`
and `wr.storage_data.length`. -/
structure WriteResult where
  fqn : String
  relativePath : String
  length : Nat
deriving Repr, DecidableEq

/-- Modelled from the spec: a `ReadItem` (not under `src/`), reduced to
the fields `read_data` reads — `req.storage_index.fqn` and
`req.dest_index.fqn`. -/
structure ReadItem where
  storage_fqn : String
  dest_fqn : String
deriving Repr, DecidableEq

/-- Python `dict` insertion: overwriting an existing key keeps its
position; a new key is appended at the end (insertion order). -/
def dictInsert {α β : Type} [DecidableEq α] : List (α × β) → α → β → List (α × β)
  | [], k, v => [(k, v)]
  | (k0, v0) :: rest, k, v =>
      if k0 = k then (k0, v) :: rest else (k0, v0) :: dictInsert rest k v

/-- Python `dict`-of-lists accumulation (`buckets[idx] = [item]` /
`buckets[idx].append(item)`, and `setdefault(key, []).append(item)`):
append to an existing key's list in place, or append a fresh singleton
entry at the end. -/
def bucketAdd {α β : Type} [DecidableEq α] : List (α × List β) → α → β → List (α × List β)
  | [], k, v => [(k, [v])]
  | (k0, l) :: rest, k, v =>
      if k0 = k then (k0, l ++ [v]) :: rest else (k0, l) :: bucketAdd rest k v

/-- The loop body of `_split_by_storage_plan` when a storage plan is
present: look each item's fqn up in the map (a missing key raises
`KeyError`) and bucket the item under the resulting index. -/
def splitByStoragePlanGo (m : List (String × Nat)) (acc : List (Nat × List WriteItem)) :
    List WriteItem → Except String (List (Nat × List WriteItem))
  | [] => Except.ok acc
  | it :: rest =>
      match m.lookup it.fqn with
      | none => Except.error ("KeyError: " ++ it.fqn)
      | some idx => splitByStoragePlanGo m (bucketAdd acc idx it) rest

/-- `_HuggingFaceStorageWriter._split_by_storage_plan`: with no storage
plan, a single bucket under index 1; otherwise bucket every item by its
mapped file index. -/
def splitByStoragePlan (m : Option (List (String × Nat))) (items : List WriteItem) :
    Except String (List (Nat × List WriteItem)) :=
  match m with
  | none => Except.ok [(1, items)]
  | some mp => splitByStoragePlanGo mp [] items

/-- Python `max` over a list of naturals: raises `ValueError` on an empty
sequence. -/
def pyMax : List Nat → Except String Nat
  | [] => Except.error "ValueError: max() arg is an empty sequence"
  | x :: xs => Except.ok (xs.foldl max x)

/-- The `highest_index` computation in `write_data`:
`max(storage_plan.values()) if storage_plan is not None else 1`. -/
def highestIndexOf (storagePlan : Option (List (String × Nat))) : Except String Nat :=
  match storagePlan with
  | some m => pyMax (m.map Prod.snd)
  | none => Except.ok 1

/-- `_HuggingFaceStorageWriter.write_data` up to the hand-off to the
external fsspec writer: an empty plan short-circuits with no queue entry;
otherwise the items are bucketed by file index, `highest_index` is
computed, and one `(file_name, write_items)` task per bucket is enqueued
(the absolute path, `fs.concat_path(self.path, file_name)`, is the fixed
directory joined with the file name and is omitted here). -/
def writeData (sd : StorageData) (items : List WriteItem) :
    Except String (List (String × List WriteItem)) :=
  if items.length = 0 then Except.ok []
  else
    match splitByStoragePlan sd.fqn_to_index_mapping items with
    | Except.error e => Except.error e
    | Except.ok buckets =>
        match highestIndexOf sd.fqn_to_index_mapping with
        | Except.error e => Except.error e
        | Except.ok highestIndex =>
            Except.ok (buckets.map (fun b => (genFileName b.1 highestIndex sd.shard_index, b.2)))

/-- The helper loop of `prepare_global_plan`, carrying the 1-based
position `i` of `enumerate(plans, start=1)`: each plan's `storage_data`
is replaced wholesale by a fresh dict via `dataclasses.replace`. -/
def prepareGlobalPlanGo (m : Option (List (String × Nat))) (sharded : Bool) (i : Nat) :
    List SavePlan → List SavePlan
  | [] => []
  | p :: rest =>
      { p with storage_data :=
          { fqn_to_index_mapping := m
            shard_index := if sharded then some i else none } } ::
        prepareGlobalPlanGo m sharded (i + 1) rest

/-- `_HuggingFaceStorageWriter.prepare_global_plan`. -/
def prepareGlobalPlan (m : Option (List (String × Nat))) (sharded : Bool)
    (plans : List SavePlan) : List SavePlan :=
  prepareGlobalPlanGo m sharded 1 plans

/-- The manifest object `finish` serializes: `metadata.total_size`
plus the `weight_map` dict. -/
structure ManifestOut where
  total_size : Nat
  weight_map : List (String × String)
deriving Repr, DecidableEq

/-- `_HuggingFaceStorageWriter.finish`: in sharded mode nothing is
written; otherwise one pass over all ranks' result lists builds
`weight_map` (dict updates, insertion order) and accumulates
`total_size`, and the manifest is written under the fixed name
`metadataFn`. -/
def finish (saveSharded : Bool) (results : List (List WriteResult)) :
    Option (String × ManifestOut) :=
  if saveSharded then none
  else
    let f := results.foldl
      (fun acc wrList =>
        (wrList.foldl (fun sm wr => dictInsert sm wr.fqn wr.relativePath) acc.1,
         acc.2 + (wrList.map (fun wr => wr.length)).sum))
      ([], 0)
    some (metadataFn, { total_size := f.2, weight_map := f.1 })

/-- Modelled from the spec: the external safetensors codec as a
serialize/deserialize inverse pair. A file's payload is represented by
the name→tensor association it encodes; serialization records each
item's name and tensor in order. -/
def serializeTensors (items : List WriteItem) : List (String × Tensor) :=
  items.map (fun it => (it.fqn, it.tensor))

/-- Modelled from the spec: `safetensors.torch.load`, the deserializing
half of the codec — the identity on the represented association, which
makes the pair inverse by construction. -/
def safetensorsLoad (contents : List (String × Tensor)) : List (String × Tensor) :=
  contents

/-- Modelled from the spec: the external fsspec writer `_write_data` —
for one queued file it serializes the items through the codec and returns
one `WriteResult` per item, carrying the item's name, the relative file
path it was written to, and its byte length. -/
def fileWriteResults (fileName : String) (items : List WriteItem) : List WriteResult :=
  items.map (fun it =>
    { fqn := it.fqn, relativePath := fileName, length := it.tensor.data.length })

/-- The printed form of `torch.Size` for a shape, as interpolated into
the mismatch assertion message. -/
def sizeRepr (shape : List Nat) : String :=
  "torch.Size([" ++ String.intercalate ", " (shape.map Nat.repr) ++ "])"

/-- The per-item core of `read_data`: with resize tolerance on,
`target_tensor.resize_(tensor.size())` then `copy_` leaves the
destination equal to the source; with it off, shapes must agree exactly
or the assertion fires with the destination fqn and both sizes; on
success `copy_` overwrites the destination's data with the source's. -/
def resolveCopy (allowResize : Bool) (destFqn : String) (target source : Tensor) :
    Except String Tensor :=
  if allowResize then
    Except.ok { shape := source.shape, data := source.data }
  else if target.shape = source.shape then
    Except.ok { shape := target.shape, data := source.data }
  else
    Except.error ("Tensor size mismatch for " ++ destFqn ++ ": " ++
      sizeRepr target.shape ++ " != " ++ sizeRepr source.shape)

/-- The grouping loop of `read_data`: each request's source fqn is looked
up in `self.storage_data` (a missing key raises `KeyError`) and the
request appended to its file's group via `setdefault`. -/
def groupByFileGo (sd : List (String × String)) (acc : List (String × List ReadItem)) :
    List ReadItem → Except String (List (String × List ReadItem))
  | [] => Except.ok acc
  | req :: rest =>
      match sd.lookup req.storage_fqn with
      | none => Except.error ("KeyError: " ++ req.storage_fqn)
      | some fileName => groupByFileGo sd (bucketAdd acc fileName req) rest

/-- One request within a file's group: fetch the loaded source tensor by
destination fqn (`loaded_tensors[req.dest_index.fqn]`), resolve the
caller's destination tensor (`planner.resolve_tensor`, modelled as a
lookup among caller-owned destinations), then resize/assert and copy. -/
def readOne (allowResize : Bool) (loaded dests : List (String × Tensor)) (req : ReadItem) :
    Except String Tensor :=
  match loaded.lookup req.dest_fqn with
  | none => Except.error ("KeyError: " ++ req.dest_fqn)
  | some tensor =>
      match dests.lookup req.dest_fqn with
      | none => Except.error ("KeyError: " ++ req.dest_fqn)
      | some target => resolveCopy allowResize req.dest_fqn target tensor

/-- All requests of one file's group, in order; each committed tensor is
recorded under its destination fqn (`planner.commit_tensor`). -/
def readGroupItems (allowResize : Bool) (loaded dests : List (String × Tensor)) :
    List ReadItem → Except String (List (String × Tensor))
  | [] => Except.ok []
  | req :: rest =>
      match readOne allowResize loaded dests req with
      | Except.error e => Except.error e
      | Except.ok t =>
          match readGroupItems allowResize loaded dests rest with
          | Except.error e => Except.error e
          | Except.ok out => Except.ok ((req.dest_fqn, t) :: out)

/-- The per-file loop of `read_data`: open each grouped file once
(a missing file surfaces as an I/O error), deserialize it through the
codec, and process its group's requests. -/
def readFiles (files : List (String × List (String × Tensor))) (allowResize : Bool)
    (dests : List (String × Tensor)) :
    List (String × List ReadItem) → Except String (List (String × Tensor))
  | [] => Except.ok []
  | (fn, reqs) :: rest =>
      match files.lookup fn with
      | none => Except.error ("FileNotFoundError: " ++ fn)
      | some contents =>
          match readGroupItems allowResize (safetensorsLoad contents) dests reqs with
          | Except.error e => Except.error e
          | Except.ok out1 =>
              match readFiles files allowResize dests rest with
              | Except.error e => Except.error e
              | Except.ok out2 => Except.ok (out1 ++ out2)

/-- `_HuggingFaceStorageReader.read_data`: group the plan's requests by
containing file via the resolved name→file map, then read file by file.
The result lists each committed destination tensor under its destination
fqn; an error anywhere aborts the whole read with no commits reported. -/
def readData (storageData : List (String × String))
    (files : List (String × List (String × Tensor))) (allowResize : Bool)
    (plan : List ReadItem) (dests : List (String × Tensor)) :
    Except String (List (String × Tensor)) :=
  match groupByFileGo storageData [] plan with
  | Except.error e => Except.error e
  | Except.ok groups => readFiles files allowResize dests groups

/-- Modelled from the spec: a parsed JSON value, as `json.loads`
produces (the integer-valued subset of JSON numbers suffices for
safetensors headers and this module's inputs). -/
inductive Json where
  | null : Json
  | bool : Bool → Json
  | num : Int → Json
  | str : String → Json
  | arr : List Json → Json
  | obj : List (String × Json) → Json
deriving Repr

/-- Skip JSON whitespace bytes (space, tab, LF, CR). -/
def skipWs : List Byte → List Byte
  | [] => []
  | b :: rest => if b = 32 ∨ b = 9 ∨ b = 10 ∨ b = 13 then skipWs rest else b :: rest

/-- Parse the body of a JSON string after its opening quote (byte 34),
accepting printable ASCII without escape sequences; returns the string
and the bytes after the closing quote. -/
def parseStringBody (acc : List Char) : List Byte → Option (String × List Byte)
  | [] => none
  | b :: rest =>
      if b = 34 then some (String.mk acc, rest)
      else if b = 92 ∨ b < 32 ∨ 126 < b then none
      else parseStringBody (acc ++ [Char.ofNat b]) rest

/-- Parse a run of decimal digit bytes into a natural number;
`hasDigit` records whether at least one digit has been consumed. -/
def parseDigits (acc : Nat) (hasDigit : Bool) : List Byte → Option (Nat × List Byte)
  | [] => if hasDigit then some (acc, []) else none
  | b :: rest =>
      if 48 ≤ b ∧ b ≤ 57 then parseDigits (acc * 10 + (b - 48)) true rest
      else if hasDigit then some (acc, b :: rest) else none

mutual

/-- Modelled from the spec: recursive-descent parse of one JSON value
(fuelled; the fuel is always ample for the input length). -/
def parseValue : Nat → List Byte → Option (Json × List Byte)
  | 0, _ => none
  | fuel + 1, input =>
      match skipWs input with
      | [] => none
      | b :: rest =>
          if b = 34 then
            match parseStringBody [] rest with
            | some (s, r) => some (Json.str s, r)
            | none => none
          else if b = 123 then parseObjAfterBrace fuel rest
          else if b = 91 then parseArrAfterBracket fuel rest
          else if b = 116 then
            match rest with
            | 114 :: 117 :: 101 :: r => some (Json.bool true, r)
            | _ => none
          else if b = 102 then
            match rest with
            | 97 :: 108 :: 115 :: 101 :: r => some (Json.bool false, r)
            | _ => none
          else if b = 110 then
            match rest with
            | 117 :: 108 :: 108 :: r => some (Json.null, r)
            | _ => none
          else if b = 45 then
            match parseDigits 0 false rest with
            | some (n, r) => some (Json.num (-(n : Int)), r)
            | none => none
          else if 48 ≤ b ∧ b ≤ 57 then
            match parseDigits (b - 48) true rest with
            | some (n, r) => some (Json.num (n : Int), r)
            | none => none
          else none

/-- Parse the remainder of a JSON object after its opening brace
(byte 123). -/
def parseObjAfterBrace : Nat → List Byte → Option (Json × List Byte)
  | 0, _ => none
  | fuel + 1, input =>
      match skipWs input with
      | 125 :: r => some (Json.obj [], r)
      | other => parseObjMembers fuel [] other

/-- Parse the members of a non-empty JSON object; duplicate keys follow
Python dict semantics (original position, last value wins). -/
def parseObjMembers : Nat → List (String × Json) → List Byte → Option (Json × List Byte)
  | 0, _, _ => none
  | fuel + 1, acc, input =>
      match skipWs input with
      | 34 :: rest =>
          match parseStringBody [] rest with
          | some (k, r1) =>
              match skipWs r1 with
              | 58 :: r2 =>
                  match parseValue fuel r2 with
                  | some (v, r3) =>
                      match skipWs r3 with
                      | 44 :: r4 => parseObjMembers fuel (dictInsert acc k v) r4
                      | 125 :: r4 => some (Json.obj (dictInsert acc k v), r4)
                      | _ => none
                  | none => none
              | _ => none
          | none => none
      | _ => none

/-- Parse the remainder of a JSON array after its opening bracket
(byte 91). -/
def parseArrAfterBracket : Nat → List Byte → Option (Json × List Byte)
  | 0, _ => none
  | fuel + 1, input =>
      match skipWs input with
      | 93 :: r => some (Json.arr [], r)
      | other => parseArrElems fuel [] other

/-- Parse the elements of a non-empty JSON array. -/
def parseArrElems : Nat → List Json → List Byte → Option (Json × List Byte)
  | 0, _, _ => none
  | fuel + 1, acc, input =>
      match parseValue fuel input with
      | some (v, r1) =>
          match skipWs r1 with
          | 44 :: r2 => parseArrElems fuel (acc ++ [v]) r2
          | 93 :: r2 => some (Json.arr (acc ++ [v]), r2)
          | _ => none
      | none => none

end

/-- Modelled from the spec: Python `json.loads` on a byte span — parse
one JSON value and require only whitespace to follow. -/
def jsonParse (bytes : List Byte) : Except String Json :=
  match parseValue (bytes.length + 1) bytes with
  | some (v, rest) =>
      match skipWs rest with
      | [] => Except.ok v
      | _ => Except.error "json.decoder.JSONDecodeError: Extra data"
  | none => Except.error "json.decoder.JSONDecodeError: Expecting value"

/-- `struct.unpack` of a little-endian unsigned 64-bit integer: the first
byte is least significant. -/
def leU64 (bs : List Byte) : Nat :=
  bs.foldr (fun b acc => b + 256 * acc) 0

/-- `_get_safetensors_file_keys`: read 8 bytes (`struct.unpack` fails
unless exactly 8 are available), interpret them as a little-endian u64
header length, read up to that many further bytes (a Python stream read
truncates at end of stream), `json.loads` the span, and return the
object's top-level keys. Bytes past the header span are never read. -/
def getSafetensorsFileKeys (bytes : List Byte) : Except String (List String) :=
  let headerLenBytes := bytes.take 8
  if headerLenBytes.length ≠ 8 then
    Except.error "struct.error: unpack requires a buffer of 8 bytes"
  else
    let headerLen := leU64 headerLenBytes
    let headerJson := (bytes.drop 8).take headerLen
    match jsonParse headerJson with
    | Except.ok (Json.obj kvs) => Except.ok (kvs.map Prod.fst)
    | Except.ok _ => Except.error "AttributeError: keys"
    | Except.error e => Except.error e

/-- Python `str.endswith`: suffix test on the character sequence. -/
def strEndsWith (s suff : String) : Bool :=
  List.isSuffixOf suff.data s.data

/-- Python `os.path.basename`: everything after the last slash. -/
def basename (p : String) : String :=
  String.mk ((p.data.reverse.takeWhile (fun c => c ≠ '/')).reverse)

/-- `_HuggingFaceStorageReader.read_metadata`, reduced to the name→file
resolution it produces (`storage_data`; `state_dict_metadata` holds a
`BytesStorageMetadata` placeholder per key of the same map). When the
manifest exists its `weight_map` is taken verbatim; otherwise the
directory must hold exactly one file with the safetensors suffix, whose
header keys are each mapped to the file's base name. `dirFiles` pairs
each directory entry, as `fs.ls` lists it, with its raw bytes. -/
def readMetadata (manifest : Option ManifestOut) (dirFiles : List (String × List Byte)) :
    Except String (List (String × String)) :=
  match manifest with
  | some m => Except.ok m.weight_map
  | none =>
      match (dirFiles.map Prod.fst).filter (fun f => strEndsWith f SUFFIX) with
      | [f] =>
          (match dirFiles.lookup f with
          | none => Except.error ("FileNotFoundError: " ++ f)
          | some bytes =>
              match getSafetensorsFileKeys bytes with
              | Except.error e => Except.error e
              | Except.ok keys => Except.ok (keys.map (fun k => (k, basename f))))
      | other =>
          Except.error ("Need exactly one safetensors file to load without metadata, found "
            ++ Nat.repr other.length ++ " files")

/-- The single-rank, single-file save pipeline: `write_data` on a plan
whose `storage_data` is empty (no mapping, non-sharded), the external
writer materializing each queued file through the codec, then `finish`.
Returns the written files and the manifest. -/
def saveSingle (items : List WriteItem) :
    Except String (List (String × List (String × Tensor)) × Option (String × ManifestOut)) :=
  match writeData { fqn_to_index_mapping := none, shard_index := none } items with
  | Except.error e => Except.error e
  | Except.ok qs =>
      Except.ok (qs.map (fun q => (q.1, serializeTensors q.2)),
        finish false [(qs.map (fun q => fileWriteResults q.1 q.2)).flatten])

/-! ## Helper lemmas -/

theorem zfill_length (s : String) (w : Nat) : (zfill s w).length = max w s.length := by
  unfold zfill
  split
  · omega
  · rw [String.length_append]
    simp only [String.length_mk, List.length_replicate]
    omega

theorem prepareGlobalPlanGo_length (m : Option (List (String × Nat))) (sharded : Bool) :
    ∀ (plans : List SavePlan) (s : Nat),
      (prepareGlobalPlanGo m sharded s plans).length = plans.length
  | [], _ => rfl
  | _ :: rest, s => by
      simp [prepareGlobalPlanGo, prepareGlobalPlanGo_length m sharded rest (s + 1)]

theorem prepareGlobalPlanGo_getElem (m : Option (List (String × Nat))) (sharded : Bool) :
    ∀ (plans : List SavePlan) (s i : Nat),
      (prepareGlobalPlanGo m sharded s plans)[i]? = (plans[i]?).map (fun p =>
        { items := p.items
          storage_data :=
            { fqn_to_index_mapping := m
              shard_index := if sharded then some (s + i) else none }
          planner_data := p.planner_data })
  | [], _, _ => by simp [prepareGlobalPlanGo]
  | p :: _, s, 0 => by simp [prepareGlobalPlanGo]
  | p :: rest, s, i + 1 => by
      simp only [prepareGlobalPlanGo, List.getElem?_cons_succ]
      rw [prepareGlobalPlanGo_getElem m sharded rest (s + 1) i]
      have h : s + 1 + i = s + (i + 1) := by omega
      simp [h]

theorem foldl_max_mem : ∀ (xs : List Nat) (x : Nat), xs.foldl max x ∈ x :: xs
  | [], x => by simp
  | y :: ys, x => by
      have h := foldl_max_mem ys (max x y)
      rcases List.mem_cons.mp h with h1 | h1
      · rw [List.foldl_cons, h1]
        rcases max_choice x y with hm | hm <;> simp [hm]
      · simp [List.foldl_cons]
        right
        right
        exact h1

theorem le_foldl_max : ∀ (xs : List Nat) (x : Nat),
    x ≤ xs.foldl max x ∧ ∀ y ∈ xs, y ≤ xs.foldl max x
  | [], x => by simp
  | z :: zs, x => by
      obtain ⟨h1, h2⟩ := le_foldl_max zs (max x z)
      refine ⟨le_trans (Nat.le_max_left x z) h1, ?_⟩
      intro y hy
      rcases List.mem_cons.mp hy with rfl | hy
      · exact le_trans (Nat.le_max_right x y) h1
      · exact h2 y hy

/-! ## Claim theorems -/

/-- C10: `prepare_global_plan` returns a list of the same length in the
same order; position `i` (0-based) of the output is the input plan at
position `i` with its `storage_data` replaced wholesale by a fresh record
holding the assignment map exactly when one was supplied and the 1-based
shard index `i + 1` exactly when sharded mode is on, every other field
unchanged. -/
theorem claim10_prepare_global_plan (m : Option (List (String × Nat))) (sharded : Bool)
    (plans : List SavePlan) (i : Nat) :
    (prepareGlobalPlan m sharded plans).length = plans.length ∧
    (prepareGlobalPlan m sharded plans)[i]? = (plans[i]?).map (fun p =>
      { items := p.items
        storage_data :=
          { fqn_to_index_mapping := m
            shard_index := if sharded then some (i + 1) else none }
        planner_data := p.planner_data }) := by
  refine ⟨prepareGlobalPlanGo_length m sharded plans 1, ?_⟩
  rw [prepareGlobalPlan, prepareGlobalPlanGo_getElem m sharded plans 1 i]
  have h : 1 + i = i + 1 := by omega
  simp [h]

/-- C5 counterexample: at index 100000 the `cpt_idx` placeholder of the
generated file name is `zfill` of a six-digit decimal and has width 6,
not 5, refuting the claim that the zero-padding width of every numeric
placeholder equals 5 regardless of the index magnitude. -/
theorem claim5_counterexample :
    (zfill (Nat.repr 100000) 5).length = 6 ∧
    genFileName 100000 1 none =
      "model-" ++ zfill (Nat.repr 100000) 5 ++ "-of-" ++ zfill (Nat.repr 1) 5 ++ SUFFIX ∧
    genFileName 100000 1 none = "model-100000-of-00001.safetensors" :=
  ⟨rfl, rfl, rfl⟩

/-- C5 (amended): `_gen_file_name` is deterministic — the same
`(index, highest_index, shard_index)` always yields the identical
string — and every numeric placeholder is `zfill`-padded to a width of
exactly `max 5 d` where `d` is the number's decimal width: width 5
whenever the number fits in five digits, and the full decimal width
beyond that. -/
theorem claim5_gen_file_name (index largest : Nat) (shard : Option Nat) :
    genFileName index largest shard = genFileName index largest shard ∧
    genFileName index largest none =
      "model-" ++ zfill (Nat.repr index) 5 ++ "-of-" ++ zfill (Nat.repr largest) 5 ++ SUFFIX ∧
    (∀ s : Nat, genFileName index largest (some s) =
      "shard-" ++ zfill (Nat.repr s) 5 ++ "-model-" ++ zfill (Nat.repr index) 5 ++
        "-of-" ++ zfill (Nat.repr largest) 5 ++ SUFFIX) ∧
    (∀ n : Nat, (zfill (Nat.repr n) 5).length = max 5 (Nat.repr n).length) :=
  ⟨rfl, rfl, fun _ => rfl, fun n => zfill_length (Nat.repr n) 5⟩

/-- C8 counterexample: on the stream `LE64(3) ++ "\x7b\x7d"` the declared
header length 3 exceeds the 2 remaining bytes, yet the parser succeeds
with an empty key list — the truncated span is itself valid JSON — so the
claim that an overlong `header_len` is a format error is false. -/
theorem claim8_counterexample :
    leU64 (([3, 0, 0, 0, 0, 0, 0, 0, 123, 125] : List Byte).take 8) = 3 ∧
    (([3, 0, 0, 0, 0, 0, 0, 0, 123, 125] : List Byte).drop 8).length = 2 ∧
    getSafetensorsFileKeys [3, 0, 0, 0, 0, 0, 0, 0, 123, 125] = Except.ok [] :=
  ⟨rfl, rfl, rfl⟩

/-- C8 (amended): the header reader fails unless 8 bytes are available;
the 8-byte prefix is interpreted as a little-endian unsigned 64-bit
integer; bytes beyond the 8-byte prefix plus `header_len` are never read;
and on the span of up to `header_len` bytes following the prefix
(truncated at end of stream, so an overlong `header_len` alone is not an
error) a successful JSON object parse yields the object's top-level keys
while a JSON parse failure propagates as a format error. -/
theorem claim8_header_reader :
    (∀ bs : List Byte, bs.length < 8 →
      getSafetensorsFileKeys bs =
        Except.error "struct.error: unpack requires a buffer of 8 bytes") ∧
    (∀ b0 b1 b2 b3 b4 b5 b6 b7 : Byte,
      leU64 [b0, b1, b2, b3, b4, b5, b6, b7] =
        b0 + 256 * (b1 + 256 * (b2 + 256 * (b3 + 256 *
          (b4 + 256 * (b5 + 256 * (b6 + 256 * b7))))))) ∧
    (∀ bs extra : List Byte, 8 + leU64 (bs.take 8) ≤ bs.length →
      getSafetensorsFileKeys (bs ++ extra) = getSafetensorsFileKeys bs) ∧
    (∀ bs : List Byte, 8 ≤ bs.length →
      (∀ kvs, jsonParse ((bs.drop 8).take (leU64 (bs.take 8))) = Except.ok (Json.obj kvs) →
        getSafetensorsFileKeys bs = Except.ok (kvs.map Prod.fst)) ∧
      (∀ e, jsonParse ((bs.drop 8).take (leU64 (bs.take 8))) = Except.error e →
        getSafetensorsFileKeys bs = Except.error e)) := by
  refine ⟨?_, ?_, ?_, ?_⟩
  · intro bs h
    have hne : (bs.take 8).length ≠ 8 := by
      simp only [List.length_take]
      omega
    simp only [getSafetensorsFileKeys]
    rw [if_pos hne]
  · intro b0 b1 b2 b3 b4 b5 b6 b7
    simp [leU64]
  · intro bs extra h
    have h8 : 8 ≤ bs.length := by omega
    have ht : (bs ++ extra).take 8 = bs.take 8 := List.take_append_of_le_length h8
    have hd : (bs ++ extra).drop 8 = bs.drop 8 ++ extra := List.drop_append_of_le_length h8
    have hlen : leU64 (bs.take 8) ≤ (bs.drop 8).length := by
      rw [List.length_drop]
      omega
    simp only [getSafetensorsFileKeys]
    rw [ht, hd, List.take_append_of_le_length hlen]
  · intro bs h
    have hl : (bs.take 8).length = 8 := by
      simp only [List.length_take]
      omega
    constructor
    · intro kvs hkvs
      simp [getSafetensorsFileKeys, hl, hkvs]
    · intro e he
      simp [getSafetensorsFileKeys, hl, he]

/-- C8 witness: the amended theorem applied at concrete inputs — a
3-byte stream for the short-read clause, a well-formed single-key header
with trailing payload bytes for the prefix-stability clause, and the
same header for the key-extraction clause. -/
theorem claim8_witness :
    getSafetensorsFileKeys [1, 2, 3] =
      Except.error "struct.error: unpack requires a buffer of 8 bytes" ∧
    getSafetensorsFileKeys
        ([7, 0, 0, 0, 0, 0, 0, 0, 123, 34, 97, 34, 58, 49, 125] ++ [9, 9, 9]) =
      getSafetensorsFileKeys [7, 0, 0, 0, 0, 0, 0, 0, 123, 34, 97, 34, 58, 49, 125] ∧
    getSafetensorsFileKeys [7, 0, 0, 0, 0, 0, 0, 0, 123, 34, 97, 34, 58, 49, 125] =
      Except.ok ([("a", Json.num 1)].map Prod.fst) :=
  ⟨claim8_header_reader.1 [1, 2, 3] (by decide),
   claim8_header_reader.2.2.1 [7, 0, 0, 0, 0, 0, 0, 0, 123, 34, 97, 34, 58, 49, 125]
     [9, 9, 9] (by decide),
   (claim8_header_reader.2.2.2 [7, 0, 0, 0, 0, 0, 0, 0, 123, 34, 97, 34, 58, 49, 125]
     (by decide)).1 [("a", Json.num 1)] rfl⟩

theorem splitByStoragePlanGo_error (m : List (String × Nat)) :
    ∀ (items : List WriteItem) (acc : List (Nat × List WriteItem)),
      (∃ it ∈ items, m.lookup it.fqn = none) →
      ∃ e, splitByStoragePlanGo m acc items = Except.error e
  | [], _, h => by simp at h
  | it0 :: rest, acc, h => by
      rcases h with ⟨it, hmem, hnone⟩
      rcases List.mem_cons.mp hmem with rfl | hmem
      · exact ⟨"KeyError: " ++ it.fqn, by simp [splitByStoragePlanGo, hnone]⟩
      · cases hl : m.lookup it0.fqn with
        | none => exact ⟨"KeyError: " ++ it0.fqn, by simp [splitByStoragePlanGo, hl]⟩
        | some idx =>
            obtain ⟨e, he⟩ :=
              splitByStoragePlanGo_error m rest (bucketAdd acc idx it0) ⟨it, hmem, hnone⟩
            exact ⟨e, by simp [splitByStoragePlanGo, hl, he]⟩

/-- C9: a plan with zero items completes immediately with an empty result
list and enqueues no file write; and when an explicit assignment map is
present but lacks some item's name, the write phase fails with an error
before any write task is enqueued, so no `WriteResult` is produced for
the plan. -/
theorem claim9_fail_fast_empty_plan :
    (∀ sd : StorageData, writeData sd [] = Except.ok []) ∧
    (∀ (sd : StorageData) (m : List (String × Nat)) (items : List WriteItem),
      sd.fqn_to_index_mapping = some m →
      (∃ it ∈ items, m.lookup it.fqn = none) →
      ∃ e, writeData sd items = Except.error e) := by
  constructor
  · intro sd
    simp [writeData]
  · intro sd m items hmap hmiss
    have hne : items.length ≠ 0 := by
      rcases hmiss with ⟨it, hmem, -⟩
      rcases items with - | ⟨a, rest⟩
      · simp at hmem
      · simp
    obtain ⟨e, he⟩ := splitByStoragePlanGo_error m items [] hmiss
    refine ⟨e, ?_⟩
    simp [writeData, hne, hmap, splitByStoragePlan, he]

/-- C9 witness: applying the theorem at a concrete empty plan and at a
concrete plan whose item `"b"` is absent from the map. -/
theorem claim9_witness :
    writeData { fqn_to_index_mapping := none, shard_index := none } [] = Except.ok [] ∧
    ∃ e, writeData { fqn_to_index_mapping := some [("a", 2)], shard_index := none }
        [{ fqn := "b", tensor := { shape := [], data := [] } }] = Except.error e :=
  ⟨claim9_fail_fast_empty_plan.1 { fqn_to_index_mapping := none, shard_index := none },
   claim9_fail_fast_empty_plan.2 { fqn_to_index_mapping := some [("a", 2)], shard_index := none }
     [("a", 2)] [{ fqn := "b", tensor := { shape := [], data := [] } }] rfl
     ⟨{ fqn := "b", tensor := { shape := [], data := [] } }, by simp, rfl⟩⟩

/-- C4: on every successful write-phase execution with a non-empty plan,
the `highest_index` threaded into the `of-NNNNN` component of every
generated file name is the greatest file index assigned by the map
(an assigned index that bounds all assigned indices) when a map is
present, and 1 when no map is present. -/
theorem claim4_highest_index (sd : StorageData) (items : List WriteItem)
    (qs : List (String × List WriteItem))
    (hok : writeData sd items = Except.ok qs) (hne : items ≠ []) :
    ∃ buckets H,
      splitByStoragePlan sd.fqn_to_index_mapping items = Except.ok buckets ∧
      highestIndexOf sd.fqn_to_index_mapping = Except.ok H ∧
      qs = buckets.map (fun b => (genFileName b.1 H sd.shard_index, b.2)) ∧
      (match sd.fqn_to_index_mapping with
       | some m => H ∈ m.map Prod.snd ∧ ∀ v ∈ m.map Prod.snd, v ≤ H
       | none => H = 1) := by
  have hlen : ¬items.length = 0 := fun h => hne (List.length_eq_zero.mp h)
  rw [writeData, if_neg hlen] at hok
  cases hsplit : splitByStoragePlan sd.fqn_to_index_mapping items with
  | error e => rw [hsplit] at hok; exact absurd hok (by simp)
  | ok buckets =>
      rw [hsplit] at hok
      cases hhi : highestIndexOf sd.fqn_to_index_mapping with
      | error e => rw [hhi] at hok; exact absurd hok (by simp)
      | ok H =>
          rw [hhi] at hok
          refine ⟨buckets, H, rfl, rfl, by simpa using hok.symm, ?_⟩
          cases hmap : sd.fqn_to_index_mapping with
          | none =>
              rw [hmap] at hhi
              have h1 : 1 = H := by simpa [highestIndexOf] using hhi
              exact h1.symm
          | some m =>
              rw [hmap] at hhi
              simp only [highestIndexOf] at hhi
              cases hvals : m.map Prod.snd with
              | nil => rw [hvals] at hhi; simp [pyMax] at hhi
              | cons x xs =>
                  rw [hvals] at hhi
                  simp only [pyMax, Except.ok.injEq] at hhi
                  subst hhi
                  refine ⟨by rw [hvals]; exact foldl_max_mem xs x, ?_⟩
                  intro v hv
                  rw [hvals] at hv
                  rcases List.mem_cons.mp hv with rfl | hv
                  · exact (le_foldl_max xs v).1
                  · exact (le_foldl_max xs x).2 v hv

/-- C4 witness: the theorem applied to a concrete two-file execution
with an explicit map assigning indices 2 and 1. -/
theorem claim4_witness :
    ∃ buckets H,
      splitByStoragePlan (some [("a", 2), ("b", 1)])
        [{ fqn := "a", tensor := { shape := [1], data := [5] } },
         { fqn := "b", tensor := { shape := [1], data := [6] } }] = Except.ok buckets ∧
      highestIndexOf (some [("a", 2), ("b", 1)]) = Except.ok H ∧
      [("model-00002-of-00002.safetensors",
          [{ fqn := "a", tensor := { shape := [1], data := [5] } }]),
       ("model-00001-of-00002.safetensors",
          [{ fqn := "b", tensor := { shape := [1], data := [6] } }])] =
        buckets.map (fun b => (genFileName b.1 H none, b.2)) ∧
      (H ∈ ([("a", 2), ("b", 1)].map Prod.snd) ∧
        ∀ v ∈ ([("a", 2), ("b", 1)].map Prod.snd), v ≤ H) :=
  claim4_highest_index { fqn_to_index_mapping := some [("a", 2), ("b", 1)], shard_index := none }
    [{ fqn := "a", tensor := { shape := [1], data := [5] } },
     { fqn := "b", tensor := { shape := [1], data := [6] } }]
    [("model-00002-of-00002.safetensors",
        [{ fqn := "a", tensor := { shape := [1], data := [5] } }]),
     ("model-00001-of-00002.safetensors",
        [{ fqn := "b", tensor := { shape := [1], data := [6] } }])]
    rfl (by simp)

theorem bucketAdd_flatten_perm {α β : Type} [DecidableEq α] :
    ∀ (acc : List (α × List β)) (k : α) (v : β),
      (((bucketAdd acc k v).map Prod.snd).flatten).Perm
        ((acc.map Prod.snd).flatten ++ [v])
  | [], k, v => by simp [bucketAdd]
  | (k0, l) :: rest, k, v => by
      by_cases hk : k0 = k
      · simp only [bucketAdd, if_pos hk, List.map_cons, List.flatten_cons]
        rw [List.append_assoc, List.append_assoc]
        exact List.Perm.append_left l (List.perm_append_comm)
      · simp only [bucketAdd, if_neg hk, List.map_cons, List.flatten_cons]
        rw [List.append_assoc]
        exact List.Perm.append_left l (bucketAdd_flatten_perm rest k v)

theorem bucketAdd_inv {α β : Type} [DecidableEq α] (P : α → β → Prop) :
    ∀ (acc : List (α × List β)) (k : α) (v : β),
      (∀ k1 l1, (k1, l1) ∈ acc → ∀ x ∈ l1, P k1 x) → P k v →
      ∀ k1 l1, (k1, l1) ∈ bucketAdd acc k v → ∀ x ∈ l1, P k1 x
  | [], k, v, hacc, hkv, k1, l1, hmem => by
      simp only [bucketAdd, List.mem_singleton, Prod.mk.injEq] at hmem
      obtain ⟨rfl, rfl⟩ := hmem
      intro x hx
      rw [List.mem_singleton.mp hx]
      exact hkv
  | (k0, l) :: rest, k, v, hacc, hkv, k1, l1, hmem => by
      by_cases hk : k0 = k
      · rw [bucketAdd, if_pos hk] at hmem
        rcases List.mem_cons.mp hmem with heq | hmem
        · rw [Prod.mk.injEq] at heq
          intro x hx
          rw [heq.2] at hx
          rcases List.mem_append.mp hx with hx1 | hx1
          · rw [heq.1]
            exact hacc k0 l (List.mem_cons_self _ _) x hx1
          · rw [heq.1, List.mem_singleton.mp hx1, hk]
            exact hkv
        · exact fun x hx => hacc k1 l1 (List.mem_cons_of_mem _ hmem) x hx
      · rw [bucketAdd, if_neg hk] at hmem
        rcases List.mem_cons.mp hmem with heq | hmem
        · rw [Prod.mk.injEq] at heq
          intro x hx
          rw [heq.2] at hx
          rw [heq.1]
          exact hacc k0 l (List.mem_cons_self _ _) x hx
        · exact bucketAdd_inv P rest k v
            (fun k2 l2 h2 => hacc k2 l2 (List.mem_cons_of_mem _ h2)) hkv k1 l1 hmem

theorem bucketAdd_keys {α β : Type} [DecidableEq α] :
    ∀ (acc : List (α × List β)) (k : α) (v : β),
      (bucketAdd acc k v).map Prod.fst =
        if k ∈ acc.map Prod.fst then acc.map Prod.fst else acc.map Prod.fst ++ [k]
  | [], k, v => by simp [bucketAdd]
  | (k0, l) :: rest, k, v => by
      by_cases hk : k0 = k
      · subst hk
        simp [bucketAdd]
      · have hne : ¬k = k0 := fun h => hk h.symm
        simp only [bucketAdd, if_neg hk, List.map_cons, List.mem_cons, hne, false_or]
        rw [bucketAdd_keys rest k v]
        by_cases hmem : k ∈ rest.map Prod.fst <;> simp [hmem]

theorem bucketAdd_keys_nodup {α β : Type} [DecidableEq α]
    (acc : List (α × List β)) (k : α) (v : β)
    (h : (acc.map Prod.fst).Nodup) : ((bucketAdd acc k v).map Prod.fst).Nodup := by
  rw [bucketAdd_keys]
  by_cases hmem : k ∈ acc.map Prod.fst
  · simpa [hmem] using h
  · simp [hmem, List.nodup_append, h]

theorem splitByStoragePlanGo_spec (m : List (String × Nat)) :
    ∀ (items : List WriteItem) (acc : List (Nat × List WriteItem)),
      (∀ it ∈ items, ∃ idx, m.lookup it.fqn = some idx) →
      (∀ k l, (k, l) ∈ acc → ∀ x ∈ l, m.lookup x.fqn = some k) →
      (acc.map Prod.fst).Nodup →
      ∃ out, splitByStoragePlanGo m acc items = Except.ok out ∧
        ((out.map Prod.snd).flatten).Perm ((acc.map Prod.snd).flatten ++ items) ∧
        (∀ k l, (k, l) ∈ out → ∀ x ∈ l, m.lookup x.fqn = some k) ∧
        (out.map Prod.fst).Nodup
  | [], acc, hdom, hinv, hnd =>
      ⟨acc, rfl, by simp, hinv, hnd⟩
  | it :: rest, acc, hdom, hinv, hnd => by
      obtain ⟨idx, hidx⟩ := hdom it (List.mem_cons_self _ _)
      obtain ⟨out, hout, hperm, hinv2, hnd2⟩ :=
        splitByStoragePlanGo_spec m rest (bucketAdd acc idx it)
          (fun x hx => hdom x (List.mem_cons_of_mem _ hx))
          (bucketAdd_inv (fun k x => m.lookup x.fqn = some k) acc idx it hinv hidx)
          (bucketAdd_keys_nodup acc idx it hnd)
      refine ⟨out, by simp [splitByStoragePlanGo, hidx, hout], ?_, hinv2, hnd2⟩
      refine hperm.trans ?_
      have h1 := List.Perm.append_right rest (bucketAdd_flatten_perm acc idx it)
      refine h1.trans ?_
      rw [List.append_assoc]
      exact List.Perm.append_left _ (by simp)

/-- C2: with an explicit assignment map covering every item name,
`_split_by_storage_plan` succeeds, each item lands only in the bucket
keyed by the index its name maps to, bucket keys are pairwise distinct,
and the concatenation of all buckets is a permutation of the input item
list (no duplication, no omission); with no map, all items form a single
bucket under index 1. -/
theorem claim2_bucketing :
    (∀ (m : List (String × Nat)) (items : List WriteItem),
      (∀ it ∈ items, ∃ idx, m.lookup it.fqn = some idx) →
      ∃ out, splitByStoragePlan (some m) items = Except.ok out ∧
        ((out.map Prod.snd).flatten).Perm items ∧
        (∀ k l, (k, l) ∈ out → ∀ x ∈ l, m.lookup x.fqn = some k) ∧
        (out.map Prod.fst).Nodup) ∧
    (∀ items : List WriteItem, splitByStoragePlan none items = Except.ok [(1, items)]) := by
  constructor
  · intro m items hdom
    obtain ⟨out, hout, hperm, hinv, hnd⟩ :=
      splitByStoragePlanGo_spec m items [] hdom (by simp) (by simp)
    exact ⟨out, hout, by simpa using hperm, hinv, hnd⟩
  · intro items
    rfl

/-- C2 witness: the theorem applied to a concrete three-item plan whose
map sends `"a"` and `"c"` to file 2 and `"b"` to file 1. -/
theorem claim2_witness :
    ∃ out, splitByStoragePlan (some [("a", 2), ("b", 1), ("c", 2)])
        [{ fqn := "a", tensor := { shape := [1], data := [1] } },
         { fqn := "b", tensor := { shape := [1], data := [2] } },
         { fqn := "c", tensor := { shape := [1], data := [3] } }] = Except.ok out ∧
      ((out.map Prod.snd).flatten).Perm
        [{ fqn := "a", tensor := { shape := [1], data := [1] } },
         { fqn := "b", tensor := { shape := [1], data := [2] } },
         { fqn := "c", tensor := { shape := [1], data := [3] } }] ∧
      (∀ k l, (k, l) ∈ out → ∀ x ∈ l,
        ([("a", 2), ("b", 1), ("c", 2)] : List (String × Nat)).lookup x.fqn = some k) ∧
      (out.map Prod.fst).Nodup :=
  claim2_bucketing.1 [("a", 2), ("b", 1), ("c", 2)]
    [{ fqn := "a", tensor := { shape := [1], data := [1] } },
     { fqn := "b", tensor := { shape := [1], data := [2] } },
     { fqn := "c", tensor := { shape := [1], data := [3] } }]
    (by intro it hit
        rcases List.mem_cons.mp hit with rfl | hit
        · exact ⟨2, rfl⟩
        rcases List.mem_cons.mp hit with rfl | hit
        · exact ⟨1, rfl⟩
        rcases List.mem_cons.mp hit with rfl | hit
        · exact ⟨2, rfl⟩
        · simp at hit)

theorem lookup_dictInsert {α β : Type} [DecidableEq α] [BEq α] [LawfulBEq α] :
    ∀ (d : List (α × β)) (k j : α) (v : β),
      (dictInsert d k v).lookup j = if j = k then some v else d.lookup j
  | [], k, j, v => by
      by_cases h : j = k
      · subst h
        simp [dictInsert, List.lookup]
      · have hb : (j == k) = false := beq_eq_false_iff_ne.mpr h
        simp [dictInsert, List.lookup, h, hb]
  | (k0, v0) :: rest, k, j, v => by
      by_cases hk : k0 = k
      · subst hk
        by_cases hj : j = k0
        · subst hj
          simp [dictInsert, List.lookup]
        · have hb : (j == k0) = false := beq_eq_false_iff_ne.mpr hj
          simp [dictInsert, List.lookup, hj, hb]
      · by_cases hj : j = k0
        · have hb : (j == k0) = true := beq_iff_eq.mpr hj
          have hne : ¬j = k := fun h => hk (hj.symm.trans h)
          simp [dictInsert, hk, List.lookup, hb, hne]
        · have hb : (j == k0) = false := beq_eq_false_iff_ne.mpr hj
          simp [dictInsert, hk, List.lookup, hb, lookup_dictInsert rest k j v]

theorem dictInsert_keys {α β : Type} [DecidableEq α] :
    ∀ (d : List (α × β)) (k : α) (v : β),
      (dictInsert d k v).map Prod.fst =
        if k ∈ d.map Prod.fst then d.map Prod.fst else d.map Prod.fst ++ [k]
  | [], k, v => by simp [dictInsert]
  | (k0, v0) :: rest, k, v => by
      by_cases hk : k0 = k
      · subst hk
        simp [dictInsert]
      · have hne : ¬k = k0 := fun h => hk h.symm
        simp only [dictInsert, if_neg hk, List.map_cons, List.mem_cons, hne, false_or]
        rw [dictInsert_keys rest k v]
        by_cases hmem : k ∈ rest.map Prod.fst <;> simp [hmem]

theorem dictInsert_keys_nodup {α β : Type} [DecidableEq α]
    (d : List (α × β)) (k : α) (v : β)
    (h : (d.map Prod.fst).Nodup) : ((dictInsert d k v).map Prod.fst).Nodup := by
  rw [dictInsert_keys]
  by_cases hmem : k ∈ d.map Prod.fst
  · simpa [hmem] using h
  · simp [hmem, List.nodup_append, h]

theorem finish_fold_general :
    ∀ (results : List (List WriteResult)) (a : List (String × String)) (b : Nat),
      results.foldl
        (fun acc wrList =>
          (wrList.foldl (fun sm wr => dictInsert sm wr.fqn wr.relativePath) acc.1,
           acc.2 + (wrList.map (fun wr => wr.length)).sum)) (a, b) =
      (results.flatten.foldl (fun sm wr => dictInsert sm wr.fqn wr.relativePath) a,
       b + (results.flatten.map (fun wr => wr.length)).sum)
  | [], a, b => by simp
  | l :: rest, a, b => by
      simp only [List.foldl_cons, List.flatten_cons, List.foldl_append, List.map_append,
        List.sum_append]
      rw [finish_fold_general rest]
      simp [Nat.add_assoc]

theorem foldl_ins_lookup_isSome :
    ∀ (rs : List WriteResult) (acc : List (String × String)) (k : String),
      (∃ v, ((rs.foldl (fun sm wr => dictInsert sm wr.fqn wr.relativePath) acc).lookup k)
          = some v) ↔
        k ∈ rs.map WriteResult.fqn ∨ ∃ v, acc.lookup k = some v
  | [], acc, k => by simp
  | r :: rest, acc, k => by
      rw [List.foldl_cons, foldl_ins_lookup_isSome rest]
      by_cases hk : k = r.fqn
      · subst hk
        simp [lookup_dictInsert]
      · simp [lookup_dictInsert, hk]

theorem foldl_ins_keys_nodup :
    ∀ (rs : List WriteResult) (acc : List (String × String)),
      (acc.map Prod.fst).Nodup →
      (((rs.foldl (fun sm wr => dictInsert sm wr.fqn wr.relativePath) acc).map
        Prod.fst)).Nodup
  | [], _, h => h
  | r :: rest, acc, h =>
      foldl_ins_keys_nodup rest (dictInsert acc r.fqn r.relativePath)
        (dictInsert_keys_nodup acc r.fqn r.relativePath h)

theorem foldl_ins_lookup_of_not_mem :
    ∀ (rs : List WriteResult) (acc : List (String × String)) (k : String),
      k ∉ rs.map WriteResult.fqn →
      ((rs.foldl (fun sm wr => dictInsert sm wr.fqn wr.relativePath) acc).lookup k)
        = acc.lookup k
  | [], acc, k, h => rfl
  | r :: rest, acc, k, h => by
      have h1 : k ∉ rest.map WriteResult.fqn := fun hm => h (by simp [hm])
      have h2 : ¬k = r.fqn := fun hm => h (by simp [hm])
      rw [List.foldl_cons, foldl_ins_lookup_of_not_mem rest _ k h1, lookup_dictInsert,
        if_neg h2]

theorem foldl_ins_lookup_nodup :
    ∀ (rs : List WriteResult) (acc : List (String × String)),
      (rs.map WriteResult.fqn).Nodup →
      ∀ wr ∈ rs,
        ((rs.foldl (fun sm wr => dictInsert sm wr.fqn wr.relativePath) acc).lookup wr.fqn)
          = some wr.relativePath
  | [], acc, hnd, wr, hmem => by simp at hmem
  | r :: rest, acc, hnd, wr, hmem => by
      rcases List.mem_cons.mp hmem with rfl | hmem
      · rw [List.foldl_cons,
          foldl_ins_lookup_of_not_mem rest _ wr.fqn (by simpa using (List.nodup_cons.mp hnd).1),
          lookup_dictInsert, if_pos rfl]
      · exact foldl_ins_lookup_nodup rest _ (List.nodup_cons.mp hnd).2 wr hmem

/-- C3: in sharded-output mode `finish` writes no manifest; otherwise it
writes, under the fixed name `model.safetensors.index.json`, a manifest
whose `total_size` is the sum of all `WriteResult` byte lengths, whose
`weight_map` keys are exactly the union of all written item names
(pairwise distinct, as dict keys), and which — whenever written item
names are pairwise distinct — maps each written item's name to its
relative file path. -/
theorem claim3_finish (results : List (List WriteResult)) :
    finish true results = none ∧
    ∃ m, finish false results = some (metadataFn, m) ∧
      m.total_size = (results.flatten.map (fun wr => wr.length)).sum ∧
      (∀ k, (∃ v, m.weight_map.lookup k = some v) ↔
        k ∈ results.flatten.map WriteResult.fqn) ∧
      (m.weight_map.map Prod.fst).Nodup ∧
      ((results.flatten.map WriteResult.fqn).Nodup →
        ∀ wr ∈ results.flatten, m.weight_map.lookup wr.fqn = some wr.relativePath) := by
  refine ⟨rfl,
    ⟨{ total_size := (results.flatten.map (fun wr => wr.length)).sum,
       weight_map := results.flatten.foldl
         (fun sm wr => dictInsert sm wr.fqn wr.relativePath) [] }, ?_, rfl, ?_, ?_, ?_⟩⟩
  · unfold finish
    rw [if_neg (by simp), finish_fold_general]
    simp
  · intro k
    simpa using foldl_ins_lookup_isSome results.flatten [] k
  · exact foldl_ins_keys_nodup results.flatten [] (by simp)
  · intro hnd wr hmem
    exact foldl_ins_lookup_nodup results.flatten [] hnd wr hmem

/-- C3 witness: the theorem applied to a concrete two-rank result set,
recovering the manifest name, a total size of 5, and the per-item
path mapping. -/
theorem claim3_witness :
    ∃ m, finish false [[{ fqn := "a", relativePath := "f1", length := 2 }],
        [{ fqn := "b", relativePath := "f2", length := 3 }]] = some (metadataFn, m) ∧
      m.total_size = 5 ∧
      m.weight_map.lookup "a" = some "f1" := by
  obtain ⟨-, m, hm, hts, -, -, hmap⟩ :=
    claim3_finish [[{ fqn := "a", relativePath := "f1", length := 2 }],
      [{ fqn := "b", relativePath := "f2", length := 3 }]]
  refine ⟨m, hm, by rw [hts]; rfl, ?_⟩
  exact hmap (by decide) { fqn := "a", relativePath := "f1", length := 2 } (by decide)

/-- C6: with resize tolerance on, the destination is resized to the
source's shape unconditionally before copying, so the committed tensor is
the source tensor; with it off and equal shapes the copy succeeds; with
it off and differing shapes the item fails with a mismatch message that
carries the destination fqn and both printed shapes — and a whole read
containing such an item aborts with that error, committing nothing, so
the failing destination is never written. -/
theorem claim6_shape_enforcement :
    (∀ (fqn : String) (target source : Tensor),
      resolveCopy true fqn target source =
        Except.ok { shape := source.shape, data := source.data }) ∧
    (∀ (fqn : String) (target source : Tensor), target.shape = source.shape →
      resolveCopy false fqn target source =
        Except.ok { shape := target.shape, data := source.data }) ∧
    (∀ (fqn : String) (target source : Tensor), target.shape ≠ source.shape →
      resolveCopy false fqn target source =
        Except.error ("Tensor size mismatch for " ++ fqn ++ ": " ++
          sizeRepr target.shape ++ " != " ++ sizeRepr source.shape)) ∧
    (∀ (sd : List (String × String)) (files : List (String × List (String × Tensor)))
        (req : ReadItem) (dests : List (String × Tensor)) (fn : String)
        (contents : List (String × Tensor)) (target source : Tensor),
      sd.lookup req.storage_fqn = some fn →
      files.lookup fn = some contents →
      contents.lookup req.dest_fqn = some source →
      dests.lookup req.dest_fqn = some target →
      target.shape ≠ source.shape →
      readData sd files false [req] dests =
        Except.error ("Tensor size mismatch for " ++ req.dest_fqn ++ ": " ++
          sizeRepr target.shape ++ " != " ++ sizeRepr source.shape)) := by
  refine ⟨fun fqn target source => rfl, ?_, ?_, ?_⟩
  · intro fqn target source h
    simp [resolveCopy, h]
  · intro fqn target source h
    simp [resolveCopy, h]
  · intro sd files req dests fn contents target source h1 h2 h3 h4 h5
    simp [readData, groupByFileGo, h1, bucketAdd, readFiles, h2, readGroupItems,
      readOne, safetensorsLoad, h3, h4, resolveCopy, h5]

/-- C6 witness: the theorem's whole-read clause applied to a concrete
single-item plan whose destination has shape `[2]` while the stored
source has shape `[3]`, plus the resize clause at the same tensors. -/
theorem claim6_witness :
    readData [("x", "f1")] [("f1", [("x", { shape := [3], data := [1, 2, 3] })])] false
        [{ storage_fqn := "x", dest_fqn := "x" }] [("x", { shape := [2], data := [0, 0] })] =
      Except.error ("Tensor size mismatch for " ++ "x" ++ ": " ++
        sizeRepr [2] ++ " != " ++ sizeRepr [3]) ∧
    resolveCopy true "x" { shape := [2], data := [0, 0] } { shape := [3], data := [1, 2, 3] } =
      Except.ok { shape := [3], data := [1, 2, 3] } :=
  ⟨claim6_shape_enforcement.2.2.2 [("x", "f1")]
      [("f1", [("x", { shape := [3], data := [1, 2, 3] })])]
      { storage_fqn := "x", dest_fqn := "x" } [("x", { shape := [2], data := [0, 0] })]
      "f1" [("x", { shape := [3], data := [1, 2, 3] })]
      { shape := [2], data := [0, 0] } { shape := [3], data := [1, 2, 3] }
      rfl rfl rfl rfl (by decide),
   claim6_shape_enforcement.1 "x" { shape := [2], data := [0, 0] }
      { shape := [3], data := [1, 2, 3] }⟩

/-- C7: with no manifest present, `read_metadata` fails with a
configuration error naming the number of candidate files unless the
directory holds exactly one file with the safetensors suffix; with
exactly one such file whose header parses to a key set, it returns the
map sending each header key to that file's base name. -/
theorem claim7_fallback_metadata :
    (∀ dirFiles : List (String × List Byte),
      ((dirFiles.map Prod.fst).filter (fun f => strEndsWith f SUFFIX)).length ≠ 1 →
      readMetadata none dirFiles =
        Except.error ("Need exactly one safetensors file to load without metadata, found "
          ++ Nat.repr ((dirFiles.map Prod.fst).filter (fun f => strEndsWith f SUFFIX)).length
          ++ " files")) ∧
    (∀ (dirFiles : List (String × List Byte)) (f : String) (bytes : List Byte)
        (keys : List String),
      (dirFiles.map Prod.fst).filter (fun f => strEndsWith f SUFFIX) = [f] →
      dirFiles.lookup f = some bytes →
      getSafetensorsFileKeys bytes = Except.ok keys →
      readMetadata none dirFiles = Except.ok (keys.map (fun k => (k, basename f)))) := by
  constructor
  · intro dirFiles hlen
    rw [readMetadata]
    cases hf : (dirFiles.map Prod.fst).filter (fun f => strEndsWith f SUFFIX) with
    | nil => rfl
    | cons a rest =>
        cases rest with
        | nil => exact absurd (by rw [hf]; rfl) hlen
        | cons b rest2 => rfl
  · intro dirFiles f bytes keys hf hlook hkeys
    rw [readMetadata, hf]
    simp [hlook, hkeys]

/-- C7 witness: the theorem applied to a concrete directory with exactly
one safetensors file holding a single-key header, and (via the error
clause) to a directory with two safetensors files. -/
theorem claim7_witness :
    readMetadata none
        [("dir/m.safetensors", [7, 0, 0, 0, 0, 0, 0, 0, 123, 34, 97, 34, 58, 49, 125]),
         ("dir/notes.txt", [])] =
      Except.ok [("a", "m.safetensors")] ∧
    ∃ e, readMetadata none [("a.safetensors", []), ("b.safetensors", [])] =
      Except.error e := by
  constructor
  · have h := claim7_fallback_metadata.2
      [("dir/m.safetensors", [7, 0, 0, 0, 0, 0, 0, 0, 123, 34, 97, 34, 58, 49, 125]),
       ("dir/notes.txt", [])]
      "dir/m.safetensors" [7, 0, 0, 0, 0, 0, 0, 0, 123, 34, 97, 34, 58, 49, 125] ["a"]
      (by decide) rfl rfl
    exact h.trans (by rfl)
  · exact ⟨_, claim7_fallback_metadata.1 [("a.safetensors", []), ("b.safetensors", [])]
      (by decide)⟩

theorem writeData_no_mapping (items : List WriteItem) (h : items ≠ []) :
    writeData { fqn_to_index_mapping := none, shard_index := none } items =
      Except.ok [(genFileName 1 1 none, items)] := by
  have hlen : ¬items.length = 0 := fun hh => h (List.length_eq_zero.mp hh)
  rw [writeData, if_neg hlen]
  rfl

theorem saveSingle_eq (items : List WriteItem) (h : items ≠ []) :
    saveSingle items =
      Except.ok ([(genFileName 1 1 none, serializeTensors items)],
        finish false [fileWriteResults (genFileName 1 1 none) items]) := by
  unfold saveSingle
  rw [writeData_no_mapping items h]
  simp

theorem fileWriteResults_map_fqn (fn : String) (items : List WriteItem) :
    (fileWriteResults fn items).map WriteResult.fqn = items.map WriteItem.fqn := by
  simp [fileWriteResults]

theorem foldl_ins_const_lookup :
    ∀ (rs : List WriteResult) (acc : List (String × String)) (fn : String),
      (∀ wr ∈ rs, wr.relativePath = fn) →
      ∀ k, (k ∈ rs.map WriteResult.fqn ∨ acc.lookup k = some fn) →
      ((rs.foldl (fun sm wr => dictInsert sm wr.fqn wr.relativePath) acc).lookup k) = some fn
  | [], acc, fn, _, k, hk => by
      rcases hk with hk | hk
      · simp at hk
      · exact hk
  | r :: rest, acc, fn, hconst, k, hk => by
      have hr : r.relativePath = fn := hconst r (List.mem_cons_self _ _)
      rw [List.foldl_cons]
      apply foldl_ins_const_lookup rest _ fn
        (fun wr hw => hconst wr (List.mem_cons_of_mem _ hw)) k
      by_cases hkr : k = r.fqn
      · right
        rw [lookup_dictInsert, if_pos hkr, hr]
      · rcases hk with hk | hk
        · rw [List.map_cons] at hk
          rcases List.mem_cons.mp hk with heq | hmem
          · exact absurd heq hkr
          · exact Or.inl hmem
        · right
          rw [lookup_dictInsert, if_neg hkr]
          exact hk

theorem serializeTensors_lookup :
    ∀ (items : List WriteItem), (items.map WriteItem.fqn).Nodup →
      ∀ it ∈ items, (serializeTensors items).lookup it.fqn = some it.tensor
  | [], _, it, h => by simp at h
  | it0 :: rest, hnd, it, hmem => by
      rcases List.mem_cons.mp hmem with rfl | hmem
      · simp [serializeTensors, List.lookup]
      · have hne : it.fqn ≠ it0.fqn := by
          intro h
          exact (List.nodup_cons.mp (by simpa using hnd)).1
            (h ▸ List.mem_map_of_mem WriteItem.fqn hmem)
        have hb : (it.fqn == it0.fqn) = false := beq_eq_false_iff_ne.mpr hne
        simp only [serializeTensors, List.map_cons, List.lookup, hb]
        exact serializeTensors_lookup rest (List.nodup_cons.mp (by simpa using hnd)).2 it hmem

theorem groupByFileGo_const (sd : List (String × String)) (fn : String) :
    ∀ (reqs pre : List ReadItem),
      (∀ r ∈ reqs, sd.lookup r.storage_fqn = some fn) →
      groupByFileGo sd [(fn, pre)] reqs = Except.ok [(fn, pre ++ reqs)]
  | [], pre, _ => by simp [groupByFileGo]
  | r :: rest, pre, h => by
      have hr := h r (List.mem_cons_self _ _)
      have hb : bucketAdd [(fn, pre)] fn r = [(fn, pre ++ [r])] := by simp [bucketAdd]
      simp only [groupByFileGo, hr, hb]
      rw [groupByFileGo_const sd fn rest (pre ++ [r])
        (fun x hx => h x (List.mem_cons_of_mem _ hx))]
      simp

theorem groupByFileGo_const_start (sd : List (String × String)) (fn : String)
    (reqs : List ReadItem) (hne : reqs ≠ [])
    (h : ∀ r ∈ reqs, sd.lookup r.storage_fqn = some fn) :
    groupByFileGo sd [] reqs = Except.ok [(fn, reqs)] := by
  cases reqs with
  | nil => exact absurd rfl hne
  | cons r rest =>
      have hr := h r (List.mem_cons_self _ _)
      have hb : bucketAdd ([] : List (String × List ReadItem)) fn r = [(fn, [r])] := rfl
      simp only [groupByFileGo, hr, hb]
      rw [groupByFileGo_const sd fn rest [r] (fun x hx => h x (List.mem_cons_of_mem _ hx))]
      simp

theorem readGroupItems_roundtrip :
    ∀ (items : List WriteItem) (loaded dests : List (String × Tensor)),
      (∀ it ∈ items, loaded.lookup it.fqn = some it.tensor) →
      (∀ it ∈ items, ∃ d, dests.lookup it.fqn = some d ∧ d.shape = it.tensor.shape) →
      readGroupItems false loaded dests
        (items.map (fun it => { storage_fqn := it.fqn, dest_fqn := it.fqn })) =
        Except.ok (items.map (fun it => (it.fqn, it.tensor)))
  | [], _, _, _, _ => rfl
  | it :: rest, loaded, dests, hload, hdest => by
      obtain ⟨d, hd, hshape⟩ := hdest it (List.mem_cons_self _ _)
      have hl := hload it (List.mem_cons_self _ _)
      simp only [List.map_cons, readGroupItems, readOne, hl, hd]
      rw [readGroupItems_roundtrip rest loaded dests
        (fun x hx => hload x (List.mem_cons_of_mem _ hx))
        (fun x hx => hdest x (List.mem_cons_of_mem _ hx))]
      simp [resolveCopy, hshape]

/-- C1: single-file round trip — saving any non-empty set of distinctly
named tensors through the Write Coordinator with no assignment map and
sharding off, then resolving the manifest through the Read Coordinator
and reading every written name back into freshly allocated destinations
of the matching shapes, commits, under exactly the names written, tensors
byte-identical to the originals (the external codec being a
serialize/deserialize inverse pair). -/
theorem claim1_round_trip (items : List WriteItem) (dests : List (String × Tensor))
    (hne : items ≠ [])
    (hnd : (items.map WriteItem.fqn).Nodup)
    (hdests : ∀ it ∈ items, ∃ d, dests.lookup it.fqn = some d ∧ d.shape = it.tensor.shape) :
    ∃ files manifest,
      saveSingle items = Except.ok (files, some (metadataFn, manifest)) ∧
      readMetadata (some manifest) [] = Except.ok manifest.weight_map ∧
      readData manifest.weight_map files false
        (items.map (fun it => { storage_fqn := it.fqn, dest_fqn := it.fqn })) dests =
        Except.ok (items.map (fun it => (it.fqn, it.tensor))) := by
  have hfin : finish false [fileWriteResults (genFileName 1 1 none) items] =
      some (metadataFn,
        { total_size :=
            ((fileWriteResults (genFileName 1 1 none) items).map (fun wr => wr.length)).sum,
          weight_map := (fileWriteResults (genFileName 1 1 none) items).foldl
            (fun sm wr => dictInsert sm wr.fqn wr.relativePath) [] }) := by
    unfold finish
    rw [if_neg (by simp), finish_fold_general]
    simp
  refine ⟨[(genFileName 1 1 none, serializeTensors items)], _,
    by rw [saveSingle_eq items hne, hfin], rfl, ?_⟩
  have hwm : ∀ it ∈ items,
      ((fileWriteResults (genFileName 1 1 none) items).foldl
        (fun sm wr => dictInsert sm wr.fqn wr.relativePath) []).lookup it.fqn =
        some (genFileName 1 1 none) := by
    intro it hit
    apply foldl_ins_const_lookup (fileWriteResults (genFileName 1 1 none) items) []
      (genFileName 1 1 none)
    · intro wr hwr
      obtain ⟨x, -, rfl⟩ := List.mem_map.mp hwr
      rfl
    · left
      rw [fileWriteResults_map_fqn]
      exact List.mem_map_of_mem WriteItem.fqn hit
  have hplanne : items.map (fun it => ({ storage_fqn := it.fqn, dest_fqn := it.fqn } :
      ReadItem)) ≠ [] := fun hh => hne (List.map_eq_nil_iff.mp hh)
  have hgroup := groupByFileGo_const_start
    ((fileWriteResults (genFileName 1 1 none) items).foldl
      (fun sm wr => dictInsert sm wr.fqn wr.relativePath) [])
    (genFileName 1 1 none)
    (items.map (fun it => { storage_fqn := it.fqn, dest_fqn := it.fqn })) hplanne
    (by intro r hr
        obtain ⟨it, hit, rfl⟩ := List.mem_map.mp hr
        exact hwm it hit)
  simp only [readData, hgroup]
  have hlookupfile : (([(genFileName 1 1 none, serializeTensors items)] :
      List (String × List (String × Tensor))).lookup (genFileName 1 1 none)) =
      some (serializeTensors items) := by
    simp [List.lookup]
  simp only [readFiles, hlookupfile]
  rw [show safetensorsLoad (serializeTensors items) = serializeTensors items from rfl]
  rw [readGroupItems_roundtrip items (serializeTensors items) dests
    (serializeTensors_lookup items hnd) hdests]
  simp

/-- C1 witness: the theorem applied to a concrete two-tensor save with
fresh zero-filled destinations of the matching shapes. -/
theorem claim1_witness :
    ∃ files manifest,
      saveSingle [{ fqn := "a", tensor := { shape := [2], data := [1, 2] } },
        { fqn := "b", tensor := { shape := [1], data := [3] } }] =
        Except.ok (files, some (metadataFn, manifest)) ∧
      readMetadata (some manifest) [] = Except.ok manifest.weight_map ∧
      readData manifest.weight_map files false
        (([{ fqn := "a", tensor := { shape := [2], data := [1, 2] } },
           { fqn := "b", tensor := { shape := [1], data := [3] } }] : List WriteItem).map
            (fun it => { storage_fqn := it.fqn, dest_fqn := it.fqn }))
        [("a", { shape := [2], data := [0, 0] }), ("b", { shape := [1], data := [0] })] =
        Except.ok (([{ fqn := "a", tensor := { shape := [2], data := [1, 2] } },
           { fqn := "b", tensor := { shape := [1], data := [3] } }] : List WriteItem).map
            (fun it => (it.fqn, it.tensor))) := by
  apply claim1_round_trip
  · intro h
    simp at h
  · decide
  · intro it hit
    rcases List.mem_cons.mp hit with rfl | hit
    · exact ⟨{ shape := [2], data := [0, 0] }, rfl, rfl⟩
    rcases List.mem_cons.mp hit with rfl | hit
    · exact ⟨{ shape := [1], data := [0] }, rfl, rfl⟩
    · simp at hit

end HFStorage
